import Mathlib

/-!
Verification of the chunked build-grid map and the command dispatcher pipeline
of the `barrage` repository (`src/map.rs`, `src/ui.rs`).

The Rust code is shallowly embedded:
* `i32` coordinates become `Int` (no arithmetic in the verified paths can
  overflow the claims' statements);
* the `HashMap<IVec2, ChunkData>` becomes a function `IVec2 → Option ChunkData`
  (`HashMap::insert` is a pointwise update, keys are unique by construction);
* a Rust `panic!` / failed `assert!` / out-of-bounds index / `.expect` failure
  is the `none` (or `Except.error`) result of the embedded operation;
* the side effect of invoking a dispatcher's `dispatch_command` is made
  explicit as an entry of the trace that `dispatch` returns.
-/

namespace Barrage

/-- Signed 2D integer vector: `bevy`'s `IVec2` as used by `src/map.rs`. -/
@[ext]
structure IVec2 where
  x : Int
  y : Int
deriving DecidableEq, Repr

instance : Add IVec2 where
  add a b := ⟨a.x + b.x, a.y + b.y⟩

/-- Constant `CHUNK_SIZE: usize = 16` from `src/map.rs`. -/
def CHUNK_SIZE : Nat := 16

/-- Constant `CHUNK_SIZE_I32: i32 = 16` from `src/map.rs`. -/
def CHUNK_SIZE_I32 : Int := 16

@[simp]
theorem CHUNK_SIZE_I32_eq : CHUNK_SIZE_I32 = 16 := rfl

/-- Struct `ChunkData`: a 16×16 grid of occupancy booleans
(`tiles: [[bool; CHUNK_SIZE]; CHUNK_SIZE]`). -/
structure ChunkData where
  tiles : Fin CHUNK_SIZE → Fin CHUNK_SIZE → Bool

/-- Constructor `ChunkData::new()`: all tiles unoccupied. -/
def ChunkData.new : ChunkData := ⟨fun _ _ => false⟩

/-- The Rust read `chunk.tiles[x as usize][y as usize]` for `x y : i32`.
Casting a negative `i32` `as usize` wraps far above 16, so the access is in
bounds exactly when `0 ≤ x < 16` and `0 ≤ y < 16`; `none` models the
out-of-bounds panic. -/
def ChunkData.get? (c : ChunkData) (x y : Int) : Option Bool :=
  if hx : 0 ≤ x ∧ x < 16 then
    if hy : 0 ≤ y ∧ y < 16 then
      some (c.tiles ⟨x.toNat, by simp only [CHUNK_SIZE]; omega⟩
        ⟨y.toNat, by simp only [CHUNK_SIZE]; omega⟩)
    else none
  else none

/-- Method `ChunkData::set`: the write `self.tiles[local_pos.x as usize][local_pos.y as usize] = value`
(also the direct assignment performed by `Map::try_place`'s commit loop);
`none` models the out-of-bounds panic. -/
def ChunkData.set (c : ChunkData) (local_pos : IVec2) (value : Bool) : Option ChunkData :=
  if (0 ≤ local_pos.x ∧ local_pos.x < 16) ∧ (0 ≤ local_pos.y ∧ local_pos.y < 16) then
    some ⟨fun i j =>
      if i.val = local_pos.x.toNat ∧ j.val = local_pos.y.toNat then value
      else c.tiles i j⟩
  else none

/-- Struct `Map`: `chunks: HashMap<IVec2, ChunkData>` as a function with unique keys. -/
structure Map where
  chunks : IVec2 → Option ChunkData

/-- Method `Map::global_to_chunk`: `div_euclid` / `rem_euclid` by 16 on each axis.
Rust's `div_euclid`/`rem_euclid` with the positive divisor 16 are `Int.ediv` /
`Int.emod`. -/
def Map.global_to_chunk (pos : IVec2) : IVec2 × IVec2 :=
  let chunk_pos : IVec2 := ⟨pos.x.ediv CHUNK_SIZE_I32, pos.y.ediv CHUNK_SIZE_I32⟩
  let local_pos : IVec2 := ⟨pos.x.emod CHUNK_SIZE_I32, pos.y.emod CHUNK_SIZE_I32⟩
  (chunk_pos, local_pos)

/-- Method `Map::chunk_to_global`: `chunk_pos * 16 + local_pos` on each axis. -/
def Map.chunk_to_global (chunk_pos local_pos : IVec2) : IVec2 :=
  ⟨chunk_pos.x * CHUNK_SIZE_I32 + local_pos.x, chunk_pos.y * CHUNK_SIZE_I32 + local_pos.y⟩

/-- Operation `HashMap::insert(pos, c)` on `chunks` — pointwise update. -/
def Map.insertChunk (m : Map) (pos : IVec2) (c : ChunkData) : Map :=
  ⟨fun p => if p = pos then some c else m.chunks p⟩

/-- Method `Map::create_chunk`: inserts a fresh chunk, then panics if the insert
returned a previous value. `Except.error` models the `panic!` on duplicate
creation; it carries the map state at the moment of the abort (the
`HashMap::insert` has already happened). The `commands.spawn(ChunkEntity ...)`
call is presentation-layer glue outside the verified core. -/
def Map.create_chunk (m : Map) (pos : IVec2) : Except Map Map :=
  let old := m.chunks pos
  let m2 := m.insertChunk pos ChunkData.new
  if old.isSome then .error m2 else .ok m2

/-- Phase 1 of `Map::try_place` (the first `for` loop over `occlusion_map`):
a read-only check. `some b` is the loop's outcome (`false` on the first
missing-chunk or occupied offset), `none` an index panic (provably
unreachable: the local coordinates are `rem_euclid` results). -/
def Map.occlusionCheck (m : Map) (pos : IVec2) : List IVec2 → Option Bool
  | [] => some true
  | offset :: rest =>
    let check_pos := pos + offset
    let chunk_pos : IVec2 := ⟨check_pos.x.ediv CHUNK_SIZE_I32, check_pos.y.ediv CHUNK_SIZE_I32⟩
    let local_pos : IVec2 := ⟨check_pos.x.emod CHUNK_SIZE_I32, check_pos.y.emod CHUNK_SIZE_I32⟩
    match m.chunks chunk_pos with
    | some chunk =>
      match chunk.get? local_pos.x local_pos.y with
      | some true => some false
      | some false => m.occlusionCheck pos rest
      | none => none
    | none => some false

/-- Phase 2 of `Map::try_place` (the second `for` loop): sets every offset's
cell to occupied. `none` models a panic: the `.expect` on a missing chunk, the
failed `assert!(!chunk.tiles[..][..])` on an occupied cell, or an index out of
bounds. -/
def Map.placeLoop (m : Map) (pos : IVec2) : List IVec2 → Option Map
  | [] => some m
  | offset :: rest =>
    let place_pos := pos + offset
    let chunk_pos : IVec2 := ⟨place_pos.x.ediv CHUNK_SIZE_I32, place_pos.y.ediv CHUNK_SIZE_I32⟩
    let local_pos : IVec2 := ⟨place_pos.x.emod CHUNK_SIZE_I32, place_pos.y.emod CHUNK_SIZE_I32⟩
    match m.chunks chunk_pos with
    | none => none
    | some chunk =>
      match chunk.get? local_pos.x local_pos.y with
      | none => none
      | some true => none
      | some false =>
        match chunk.set local_pos true with
        | none => none
        | some chunk2 => (m.insertChunk chunk_pos chunk2).placeLoop pos rest

/-- Method `Map::try_place`: phase 1, then (only on full success) phase 2.
`some (b, m2)` is a normal return of `b` with resulting map `m2`;
`none` is a panic inside the call. -/
def Map.try_place (m : Map) (pos : IVec2) (occlusion_map : List IVec2) : Option (Bool × Map) :=
  match m.occlusionCheck pos occlusion_map with
  | none => none
  | some false => some (false, m)
  | some true =>
    match m.placeLoop pos occlusion_map with
    | none => none
    | some m2 => some (true, m2)

/-- Method `Map::is_occupied`: `some true` if the chunk is missing, otherwise the
cell's flag; `none` is the index panic on an out-of-bounds local position. -/
def Map.is_occupied (m : Map) (chunk_pos local_pos : IVec2) : Option Bool :=
  match m.chunks chunk_pos with
  | some chunk => chunk.get? local_pos.x local_pos.y
  | none => some true

/-- Global cell `c` is placeable in `m`: its owning chunk exists and its flag
is `false` — i.e. `is_occupied` at `global_to_chunk c` returns `some false`. -/
def Map.cellFree (m : Map) (c : IVec2) : Prop :=
  m.is_occupied (Map.global_to_chunk c).1 (Map.global_to_chunk c).2 = some false

instance (m : Map) (c : IVec2) : Decidable (m.cellFree c) := by
  unfold Map.cellFree
  infer_instance

/-- Struct `CommandEvent` from `src/ui.rs`; the payload (`CommandPayload`) carries
engine types (`Vec2`, `Entity`) the dispatcher layer never inspects, so it is
an opaque type parameter `P`. `Clone` on this plain data struct is the
identity, so "a copy of the event" is the event value itself. -/
structure CommandEvent (P : Type) where
  command_type : String
  payload : P

/-- A `CommandDispatcher` trait object: the `catches` predicate over command
identifiers plus an execution action. The body of `dispatch_command` is an
arbitrary side effect outside the model, so the action is an opaque token of
type `A`; invoking it is recorded in the trace `dispatch` returns. -/
structure CommandDispatcher (P A : Type) where
  catches : String → Bool
  action : A

/-- Struct `CommandDispatcherPipeline`: the ordered `Vec` of registered dispatchers. -/
structure CommandDispatcherPipeline (P A : Type) where
  dispatchers : List (CommandDispatcher P A)

/-- Method `CommandDispatcherPipeline::dispatch`: the `for` loop over the
dispatchers, with the side effect of each `dispatcher.dispatch_command(
command_event.clone())` call made explicit as a trace entry
`(dispatcher, event copy)`, appended in invocation order. -/
def CommandDispatcherPipeline.dispatch {P A : Type}
    (p : CommandDispatcherPipeline P A) (command_event : CommandEvent P) :
    List (CommandDispatcher P A × CommandEvent P) :=
  p.dispatchers.foldl
    (fun trace dispatcher =>
      if dispatcher.catches command_event.command_type then
        trace ++ [(dispatcher, command_event)]
      else trace)
    []

/-- Method `CommandDispatcherPipeline::register_dispatcher`: appends to the ordered
list (the `info!` log line is outside the model). -/
def CommandDispatcherPipeline.register_dispatcher {P A : Type}
    (p : CommandDispatcherPipeline P A) (dispatcher : CommandDispatcher P A) :
    CommandDispatcherPipeline P A :=
  ⟨p.dispatchers ++ [dispatcher]⟩

/-! Concrete map states used to instantiate the theorems. -/

/-- The map with no chunks (`Map::default()`). -/
def emptyMap : Map := ⟨fun _ => none⟩

/-- A map with a single, fully free chunk at chunk coordinate `(0, 0)`. -/
def oneChunkMap : Map := emptyMap.insertChunk ⟨0, 0⟩ ChunkData.new

/-- A map with a single chunk at `(0, 0)` whose local cell `(0, 0)` is
occupied. -/
def occupiedMap : Map :=
  ⟨fun p =>
    if p = ⟨0, 0⟩ then some ⟨fun i j => decide (i.val = 0 ∧ j.val = 0)⟩
    else none⟩

/-! Helper lemmas. -/

@[simp]
theorem IVec2.add_x (a b : IVec2) : (a + b).x = a.x + b.x := rfl

@[simp]
theorem IVec2.add_y (a b : IVec2) : (a + b).y = a.y + b.y := rfl

@[simp]
theorem global_to_chunk_fst (v : IVec2) :
    (Map.global_to_chunk v).1 = ⟨v.x.ediv CHUNK_SIZE_I32, v.y.ediv CHUNK_SIZE_I32⟩ := rfl

@[simp]
theorem global_to_chunk_snd (v : IVec2) :
    (Map.global_to_chunk v).2 = ⟨v.x.emod CHUNK_SIZE_I32, v.y.emod CHUNK_SIZE_I32⟩ := rfl

theorem ediv16_eq (x : Int) : x.ediv 16 = x / 16 := rfl

theorem emod16_eq (x : Int) : x.emod 16 = x % 16 := rfl

theorem emod16_nonneg (x : Int) : 0 ≤ x.emod CHUNK_SIZE_I32 := by
  rw [CHUNK_SIZE_I32_eq, emod16_eq]
  omega

theorem emod16_lt (x : Int) : x.emod CHUNK_SIZE_I32 < 16 := by
  rw [CHUNK_SIZE_I32_eq, emod16_eq]
  omega

theorem roundtrip (pos : IVec2) :
    Map.chunk_to_global (Map.global_to_chunk pos).1 (Map.global_to_chunk pos).2 = pos := by
  have hx : pos.x.ediv CHUNK_SIZE_I32 * CHUNK_SIZE_I32 + pos.x.emod CHUNK_SIZE_I32 = pos.x := by
    rw [CHUNK_SIZE_I32_eq, ediv16_eq, emod16_eq]
    omega
  have hy : pos.y.ediv CHUNK_SIZE_I32 * CHUNK_SIZE_I32 + pos.y.emod CHUNK_SIZE_I32 = pos.y := by
    rw [CHUNK_SIZE_I32_eq, ediv16_eq, emod16_eq]
    omega
  simp only [Map.chunk_to_global, global_to_chunk_fst, global_to_chunk_snd]
  ext
  · exact hx
  · exact hy

theorem global_to_chunk_inj {a b : IVec2}
    (h : Map.global_to_chunk a = Map.global_to_chunk b) : a = b := by
  have ha := roundtrip a
  have hb := roundtrip b
  rw [← ha, ← hb, h]

theorem ChunkData.get?_eq_some (c : ChunkData) {x y : Int}
    (hx : 0 ≤ x ∧ x < 16) (hy : 0 ≤ y ∧ y < 16) :
    c.get? x y = some (c.tiles ⟨x.toNat, by simp only [CHUNK_SIZE]; omega⟩
      ⟨y.toNat, by simp only [CHUNK_SIZE]; omega⟩) := by
  simp only [ChunkData.get?, dif_pos hx, dif_pos hy]

theorem ChunkData.set_eq_some (c : ChunkData) {lp : IVec2} (v : Bool)
    (hx : 0 ≤ lp.x ∧ lp.x < 16) (hy : 0 ≤ lp.y ∧ lp.y < 16) :
    c.set lp v = some ⟨fun i j =>
      if i.val = lp.x.toNat ∧ j.val = lp.y.toNat then v else c.tiles i j⟩ := by
  simp only [ChunkData.set, if_pos (And.intro hx hy)]

theorem occlusionCheck_cons (m : Map) (pos offset : IVec2) (rest : List IVec2) :
    m.occlusionCheck pos (offset :: rest) =
      match m.chunks (Map.global_to_chunk (pos + offset)).1 with
      | some chunk =>
        match chunk.get? (Map.global_to_chunk (pos + offset)).2.x
            (Map.global_to_chunk (pos + offset)).2.y with
        | some true => some false
        | some false => m.occlusionCheck pos rest
        | none => none
      | none => some false := rfl

theorem placeLoop_cons (m : Map) (pos offset : IVec2) (rest : List IVec2) :
    m.placeLoop pos (offset :: rest) =
      match m.chunks (Map.global_to_chunk (pos + offset)).1 with
      | none => none
      | some chunk =>
        match chunk.get? (Map.global_to_chunk (pos + offset)).2.x
            (Map.global_to_chunk (pos + offset)).2.y with
        | none => none
        | some true => none
        | some false =>
          match chunk.set (Map.global_to_chunk (pos + offset)).2 true with
          | none => none
          | some chunk2 =>
            (m.insertChunk (Map.global_to_chunk (pos + offset)).1 chunk2).placeLoop
              pos rest := rfl

theorem add_left_cancel_IVec2 {a b c : IVec2} (h : a + b = a + c) : b = c := by
  have hx := congrArg IVec2.x h
  have hy := congrArg IVec2.y h
  simp only [IVec2.add_x, IVec2.add_y] at hx hy
  ext <;> omega

theorem coords_ne_of_ne {pos o1 o2 : IVec2} (h : o1 ≠ o2) :
    ¬((Map.global_to_chunk (pos + o1)).1 = (Map.global_to_chunk (pos + o2)).1 ∧
      (Map.global_to_chunk (pos + o1)).2 = (Map.global_to_chunk (pos + o2)).2) := by
  rintro ⟨h1, h2⟩
  exact h (add_left_cancel_IVec2 (global_to_chunk_inj (Prod.ext h1 h2)))

theorem insertChunk_chunks_self (m : Map) (p : IVec2) (c : ChunkData) :
    (m.insertChunk p c).chunks p = some c := by
  simp [Map.insertChunk]

theorem insertChunk_chunks_other (m : Map) {p q : IVec2} (c : ChunkData) (h : q ≠ p) :
    (m.insertChunk p c).chunks q = m.chunks q := by
  simp [Map.insertChunk, h]

theorem local_range (v : IVec2) :
    (0 ≤ (Map.global_to_chunk v).2.x ∧ (Map.global_to_chunk v).2.x < 16) ∧
    (0 ≤ (Map.global_to_chunk v).2.y ∧ (Map.global_to_chunk v).2.y < 16) := by
  simp only [global_to_chunk_snd]
  exact ⟨⟨emod16_nonneg _, emod16_lt _⟩, ⟨emod16_nonneg _, emod16_lt _⟩⟩

theorem occlusionCheck_eq_true_iff (m : Map) (pos : IVec2) :
    ∀ occ : List IVec2,
      (m.occlusionCheck pos occ = some true ↔ ∀ o ∈ occ, m.cellFree (pos + o))
  | [] => by simp [Map.occlusionCheck]
  | offset :: rest => by
    have ih := occlusionCheck_eq_true_iff m pos rest
    rw [occlusionCheck_cons]
    rcases hch : m.chunks (Map.global_to_chunk (pos + offset)).1 with _ | chunk
    · simp only
      constructor
      · intro h
        cases h
      · intro hall
        have hfree := hall offset (List.mem_cons_self offset rest)
        simp only [Map.cellFree, Map.is_occupied, hch] at hfree
        exact absurd hfree (by decide)
    · obtain ⟨hx, hy⟩ := local_range (pos + offset)
      rcases hget : chunk.get? (Map.global_to_chunk (pos + offset)).2.x
          (Map.global_to_chunk (pos + offset)).2.y with _ | b
      · rw [ChunkData.get?_eq_some chunk hx hy] at hget
        cases hget
      · cases b
        · simp only [hget]
          rw [ih]
          constructor
          · intro hrest o ho
            rcases List.mem_cons.mp ho with rfl | ho2
            · simp only [Map.cellFree, Map.is_occupied, hch]
              exact hget
            · exact hrest o ho2
          · intro hall o ho
            exact hall o (List.mem_cons_of_mem _ ho)
        · simp only [hget]
          constructor
          · intro h
            cases h
          · intro hall
            have hfree := hall offset (List.mem_cons_self offset rest)
            simp only [Map.cellFree, Map.is_occupied, hch, hget] at hfree
            exact absurd hfree (by decide)

theorem is_occupied_insert_set (m : Map) (cp : IVec2) (chunk chunk2 : ChunkData) (lp : IVec2)
    (hch : m.chunks cp = some chunk) (hset : chunk.set lp true = some chunk2) :
    (m.insertChunk cp chunk2).is_occupied cp lp = some true ∧
    ∀ cp2 lp2 : IVec2, ¬(cp2 = cp ∧ lp2 = lp) →
      (m.insertChunk cp chunk2).is_occupied cp2 lp2 = m.is_occupied cp2 lp2 := by
  have hrange : (0 ≤ lp.x ∧ lp.x < 16) ∧ (0 ≤ lp.y ∧ lp.y < 16) := by
    by_contra hc
    rw [ChunkData.set, if_neg hc] at hset
    cases hset
  obtain ⟨hx, hy⟩ := hrange
  have hset2 : chunk2 = ⟨fun i j =>
      if i.val = lp.x.toNat ∧ j.val = lp.y.toNat then true else chunk.tiles i j⟩ := by
    rw [ChunkData.set_eq_some chunk true hx hy] at hset
    exact (Option.some_inj.mp hset).symm
  constructor
  · simp only [Map.is_occupied, insertChunk_chunks_self]
    rw [hset2, ChunkData.get?_eq_some _ hx hy]
    simp
  · intro cp2 lp2 hne
    by_cases hcp : cp2 = cp
    · subst hcp
      have hlp : lp2 ≠ lp := fun h => hne ⟨rfl, h⟩
      simp only [Map.is_occupied, insertChunk_chunks_self, hch]
      rw [hset2]
      by_cases hx2 : 0 ≤ lp2.x ∧ lp2.x < 16
      · by_cases hy2 : 0 ≤ lp2.y ∧ lp2.y < 16
        · rw [ChunkData.get?_eq_some _ hx2 hy2, ChunkData.get?_eq_some _ hx2 hy2]
          simp only [Option.some_inj]
          rw [if_neg]
          rintro ⟨h1, h2⟩
          apply hlp
          have h1a : lp2.x.toNat = lp.x.toNat := h1
          have h2a : lp2.y.toNat = lp.y.toNat := h2
          ext <;> omega
        · simp [ChunkData.get?, hy2]
      · simp [ChunkData.get?, hx2]
    · unfold Map.is_occupied
      rw [insertChunk_chunks_other m chunk2 hcp]

theorem cellFree_elim {m : Map} {c : IVec2} (h : m.cellFree c) :
    ∃ chunk, m.chunks (Map.global_to_chunk c).1 = some chunk ∧
      chunk.get? (Map.global_to_chunk c).2.x (Map.global_to_chunk c).2.y = some false := by
  rcases hch : m.chunks (Map.global_to_chunk c).1 with _ | chunk
  · simp only [Map.cellFree, Map.is_occupied, hch] at h
    exact absurd h (by decide)
  · refine ⟨chunk, rfl, ?_⟩
    simp only [Map.cellFree, Map.is_occupied, hch] at h
    exact h

theorem placeLoop_spec (pos : IVec2) :
    ∀ (occ : List IVec2) (m : Map),
      (∀ o ∈ occ, m.cellFree (pos + o)) → occ.Nodup →
      ∃ m2, m.placeLoop pos occ = some m2 ∧
        (∀ o ∈ occ, m2.is_occupied (Map.global_to_chunk (pos + o)).1
            (Map.global_to_chunk (pos + o)).2 = some true) ∧
        (∀ cp lp : IVec2,
          (∀ o ∈ occ, ¬(cp = (Map.global_to_chunk (pos + o)).1 ∧
            lp = (Map.global_to_chunk (pos + o)).2)) →
          m2.is_occupied cp lp = m.is_occupied cp lp)
  | [], m, _, _ => ⟨m, rfl, by simp, fun cp lp _ => rfl⟩
  | offset :: rest, m, hfree, hnd => by
    obtain ⟨chunk, hch, hget⟩ :=
      cellFree_elim (hfree offset (List.mem_cons_self offset rest))
    obtain ⟨hx, hy⟩ := local_range (pos + offset)
    obtain ⟨chunk2, hset⟩ :
        ∃ c2, chunk.set (Map.global_to_chunk (pos + offset)).2 true = some c2 :=
      ⟨_, ChunkData.set_eq_some chunk true hx hy⟩
    have hframe1 := is_occupied_insert_set m _ chunk chunk2 _ hch hset
    have hoffnotin : offset ∉ rest := (List.nodup_cons.mp hnd).1
    have hfree2 : ∀ o ∈ rest,
        (m.insertChunk (Map.global_to_chunk (pos + offset)).1 chunk2).cellFree (pos + o) := by
      intro o ho
      have hneq : ¬((Map.global_to_chunk (pos + o)).1 = (Map.global_to_chunk (pos + offset)).1 ∧
          (Map.global_to_chunk (pos + o)).2 = (Map.global_to_chunk (pos + offset)).2) :=
        coords_ne_of_ne (fun h => hoffnotin (by rw [← h]; exact ho))
      have hfc := hfree o (List.mem_cons_of_mem _ ho)
      unfold Map.cellFree at hfc ⊢
      rw [hframe1.2 _ _ hneq]
      exact hfc
    obtain ⟨m3, hpl3, hocc3, hframe3⟩ :=
      placeLoop_spec pos rest (m.insertChunk (Map.global_to_chunk (pos + offset)).1 chunk2)
        hfree2 (List.nodup_cons.mp hnd).2
    refine ⟨m3, ?_, ?_, ?_⟩
    · rw [placeLoop_cons]
      simp only [hch, hget, hset]
      exact hpl3
    · intro o ho
      rcases List.mem_cons.mp ho with rfl | ho2
      · rw [hframe3 _ _ (fun o2 ho2 =>
          coords_ne_of_ne (fun h => hoffnotin (by rw [h]; exact ho2)))]
        exact hframe1.1
      · exact hocc3 o ho2
    · intro cp lp hunt
      rw [hframe3 cp lp (fun o2 ho2 => hunt o2 (List.mem_cons_of_mem _ ho2))]
      exact hframe1.2 cp lp (hunt offset (List.mem_cons_self _ _))

theorem placeLoop_none_of_occupied (pos : IVec2) :
    ∀ (occ : List IVec2) (m : Map) (o : IVec2), o ∈ occ →
      m.is_occupied (Map.global_to_chunk (pos + o)).1
        (Map.global_to_chunk (pos + o)).2 = some true →
      m.placeLoop pos occ = none
  | [], _, o, ho, _ => absurd ho (List.not_mem_nil o)
  | offset :: rest, m, o, ho, hocc => by
    rcases hch : m.chunks (Map.global_to_chunk (pos + offset)).1 with _ | chunk
    · rw [placeLoop_cons]
      simp only [hch]
    · obtain ⟨hx, hy⟩ := local_range (pos + offset)
      rcases hget : chunk.get? (Map.global_to_chunk (pos + offset)).2.x
          (Map.global_to_chunk (pos + offset)).2.y with _ | b
      · rw [placeLoop_cons]
        simp only [hch, hget]
      · cases b
        · have hneq : ¬((Map.global_to_chunk (pos + o)).1 = (Map.global_to_chunk (pos + offset)).1 ∧
              (Map.global_to_chunk (pos + o)).2 = (Map.global_to_chunk (pos + offset)).2) := by
            rintro ⟨e1, e2⟩
            rw [e1, e2] at hocc
            simp only [Map.is_occupied, hch, hget] at hocc
            exact absurd hocc (by decide)
          have ho2 : o ∈ rest := by
            rcases List.mem_cons.mp ho with rfl | h
            · exact absurd ⟨rfl, rfl⟩ hneq
            · exact h
          obtain ⟨chunk2, hset⟩ :
              ∃ c2, chunk.set (Map.global_to_chunk (pos + offset)).2 true = some c2 :=
            ⟨_, ChunkData.set_eq_some chunk true hx hy⟩
          rw [placeLoop_cons]
          simp only [hch, hget, hset]
          apply placeLoop_none_of_occupied pos rest _ o ho2
          rw [(is_occupied_insert_set m _ chunk chunk2 _ hch hset).2 _ _ hneq]
          exact hocc
        · rw [placeLoop_cons]
          simp only [hch, hget]

theorem placeLoop_none_of_dup (pos : IVec2) :
    ∀ (occ : List IVec2) (m : Map),
      (∀ o ∈ occ, m.cellFree (pos + o)) → ¬ occ.Nodup →
      m.placeLoop pos occ = none
  | [], _, _, hnd => absurd List.nodup_nil hnd
  | offset :: rest, m, hfree, hnd => by
    obtain ⟨chunk, hch, hget⟩ :=
      cellFree_elim (hfree offset (List.mem_cons_self offset rest))
    obtain ⟨hx, hy⟩ := local_range (pos + offset)
    obtain ⟨chunk2, hset⟩ :
        ∃ c2, chunk.set (Map.global_to_chunk (pos + offset)).2 true = some c2 :=
      ⟨_, ChunkData.set_eq_some chunk true hx hy⟩
    have hframe1 := is_occupied_insert_set m _ chunk chunk2 _ hch hset
    rw [placeLoop_cons]
    simp only [hch, hget, hset]
    by_cases hmem : offset ∈ rest
    · exact placeLoop_none_of_occupied pos rest _ offset hmem hframe1.1
    · have hnd2 : ¬ rest.Nodup := fun h => hnd (List.nodup_cons.mpr ⟨hmem, h⟩)
      apply placeLoop_none_of_dup pos rest
      · intro o ho
        have hneq : ¬((Map.global_to_chunk (pos + o)).1 = (Map.global_to_chunk (pos + offset)).1 ∧
            (Map.global_to_chunk (pos + o)).2 = (Map.global_to_chunk (pos + offset)).2) :=
          coords_ne_of_ne (fun h => hmem (by rw [← h]; exact ho))
        have hfc := hfree o (List.mem_cons_of_mem _ ho)
        unfold Map.cellFree at hfc ⊢
        rw [hframe1.2 _ _ hneq]
        exact hfc
      · exact hnd2

theorem foldl_dispatch_eq {P A : Type} (e : CommandEvent P) :
    ∀ (ds : List (CommandDispatcher P A)) (acc : List (CommandDispatcher P A × CommandEvent P)),
      ds.foldl (fun trace dispatcher =>
          if dispatcher.catches e.command_type then trace ++ [(dispatcher, e)] else trace) acc =
        acc ++ (ds.filter (fun d => d.catches e.command_type)).map (fun d => (d, e))
  | [], acc => by simp
  | d :: ds, acc => by
    rw [List.foldl_cons]
    by_cases hc : d.catches e.command_type
    · rw [if_pos hc, foldl_dispatch_eq e ds (acc ++ [(d, e)])]
      simp [hc]
    · rw [if_neg hc, foldl_dispatch_eq e ds acc]
      simp [hc]

theorem register_foldl_dispatchers {P A : Type} :
    ∀ (ds : List (CommandDispatcher P A)) (p : CommandDispatcherPipeline P A),
      (ds.foldl CommandDispatcherPipeline.register_dispatcher p).dispatchers =
        p.dispatchers ++ ds
  | [], p => by simp
  | d :: ds, p => by
    rw [List.foldl_cons, register_foldl_dispatchers ds]
    simp [CommandDispatcherPipeline.register_dispatcher]

/-! The claims. -/

/-- Claim C1: for every map state, anchor cell and footprint, if `try_place`
returns `false` then the map is left completely unchanged — the check phase is
read-only, so the failure return carries the untouched input map. -/
theorem try_place_false_leaves_map_unchanged (m : Map) (pos : IVec2)
    (occ : List IVec2) (m2 : Map) (h : m.try_place pos occ = some (false, m2)) :
    m2 = m := by
  unfold Map.try_place at h
  rcases hc : m.occlusionCheck pos occ with _ | b
  · rw [hc] at h
    exact Option.noConfusion h
  · cases b
    · simp only [hc, Option.some.injEq, Prod.mk.injEq] at h
      exact h.2.symm
    · simp only [hc] at h
      rcases hp : m.placeLoop pos occ with _ | m3
      · rw [hp] at h
        exact Option.noConfusion h
      · simp only [hp, Option.some.injEq, Prod.mk.injEq] at h
        exact absurd h.1 (by decide)

theorem try_place_false_leaves_map_unchanged_witness :
    emptyMap.try_place ⟨0, 0⟩ [⟨0, 0⟩] = some (false, emptyMap) ∧ emptyMap = emptyMap :=
  ⟨rfl, try_place_false_leaves_map_unchanged emptyMap ⟨0, 0⟩ [⟨0, 0⟩] emptyMap rfl⟩

/-- Claim C2 counterexample: in a map with one empty chunk, every footprint
cell of the duplicate footprint `[(0,0), (0,0)]` lies in an existing chunk and
is free beforehand, yet `try_place` does not return `true`: it aborts (`none`,
the failed commit-phase `assert!`) instead. -/
theorem try_place_iff_counterexample :
    (∀ o ∈ [(⟨0, 0⟩ : IVec2), ⟨0, 0⟩], oneChunkMap.cellFree ((⟨0, 0⟩ : IVec2) + o)) ∧
    oneChunkMap.try_place ⟨0, 0⟩ [⟨0, 0⟩, ⟨0, 0⟩] = none := by
  constructor
  · decide
  · rfl

/-- Claim C2 (amended: the footprint's offsets must be pairwise distinct;
a footprint repeating an offset makes the commit-phase `assert!` fire, a
fatal abort rather than a `true` return): `try_place` returns `true` iff
beforehand the chunk of every footprint cell exists and every footprint cell
is unoccupied, and on `true` every footprint cell is occupied afterwards. -/
theorem try_place_success_iff (m : Map) (pos : IVec2) (occ : List IVec2)
    (hnd : occ.Nodup) :
    ((∃ m2, m.try_place pos occ = some (true, m2)) ↔ ∀ o ∈ occ, m.cellFree (pos + o)) ∧
    (∀ m2, m.try_place pos occ = some (true, m2) →
      ∀ o ∈ occ, m2.is_occupied (Map.global_to_chunk (pos + o)).1
        (Map.global_to_chunk (pos + o)).2 = some true) := by
  constructor
  · constructor
    · rintro ⟨m2, h⟩
      unfold Map.try_place at h
      rcases hc : m.occlusionCheck pos occ with _ | b
      · rw [hc] at h
        exact Option.noConfusion h
      · cases b
        · simp only [hc, Option.some.injEq, Prod.mk.injEq] at h
          exact absurd h.1 (by decide)
        · exact (occlusionCheck_eq_true_iff m pos occ).mp hc
    · intro hall
      obtain ⟨m3, hpl, _, _⟩ := placeLoop_spec pos occ m hall hnd
      refine ⟨m3, ?_⟩
      unfold Map.try_place
      simp only [(occlusionCheck_eq_true_iff m pos occ).mpr hall, hpl]
  · intro m2 h o ho
    unfold Map.try_place at h
    rcases hc : m.occlusionCheck pos occ with _ | b
    · rw [hc] at h
      exact Option.noConfusion h
    · cases b
      · simp only [hc, Option.some.injEq, Prod.mk.injEq] at h
        exact absurd h.1 (by decide)
      · simp only [hc] at h
        obtain ⟨m3, hpl, hocc, _⟩ :=
          placeLoop_spec pos occ m ((occlusionCheck_eq_true_iff m pos occ).mp hc) hnd
        rw [hpl] at h
        simp only [Option.some.injEq, Prod.mk.injEq] at h
        rw [← h.2]
        exact hocc o ho

theorem try_place_success_iff_witness :
    ([(⟨0, 0⟩ : IVec2), ⟨1, 0⟩].Nodup) ∧
    (((∃ m2, oneChunkMap.try_place ⟨0, 0⟩ [⟨0, 0⟩, ⟨1, 0⟩] = some (true, m2)) ↔
      ∀ o ∈ [(⟨0, 0⟩ : IVec2), ⟨1, 0⟩], oneChunkMap.cellFree ((⟨0, 0⟩ : IVec2) + o)) ∧
    (∀ m2, oneChunkMap.try_place ⟨0, 0⟩ [⟨0, 0⟩, ⟨1, 0⟩] = some (true, m2) →
      ∀ o ∈ [(⟨0, 0⟩ : IVec2), ⟨1, 0⟩],
        m2.is_occupied (Map.global_to_chunk ((⟨0, 0⟩ : IVec2) + o)).1
          (Map.global_to_chunk ((⟨0, 0⟩ : IVec2) + o)).2 = some true)) :=
  ⟨by decide, try_place_success_iff oneChunkMap ⟨0, 0⟩ [⟨0, 0⟩, ⟨1, 0⟩] (by decide)⟩

/-- Claim C3 counterexample: with one empty chunk and anchor `(1,1)`, the
duplicate footprint `[(0,0), (0,0)]` touches only an existing, free cell, yet
`try_place` does not return success — it aborts fatally (`none`, the failed
commit-phase `assert!` on the second occurrence). -/
theorem try_place_duplicate_counterexample :
    oneChunkMap.cellFree (⟨1, 1⟩ : IVec2) ∧
    oneChunkMap.try_place ⟨1, 1⟩ [⟨0, 0⟩, ⟨0, 0⟩] = none := by
  constructor
  · decide
  · rfl

/-- Claim C3 (amended: a footprint that contains the same cell offset more
than once, anchored so that every touched cell lies in an existing chunk and
is free, passes the read-only check phase but aborts fatally at the
commit-phase assertion when it reaches a repeated cell: `try_place` panics
instead of returning success). -/
theorem try_place_duplicate_aborts (m : Map) (pos : IVec2) (occ : List IVec2)
    (hfree : ∀ o ∈ occ, m.cellFree (pos + o)) (hdup : ¬ occ.Nodup) :
    m.try_place pos occ = none := by
  unfold Map.try_place
  simp only [(occlusionCheck_eq_true_iff m pos occ).mpr hfree,
    placeLoop_none_of_dup pos occ m hfree hdup]

theorem try_place_duplicate_aborts_witness :
    (∀ o ∈ [(⟨2, 2⟩ : IVec2), ⟨2, 2⟩], oneChunkMap.cellFree ((⟨0, 0⟩ : IVec2) + o)) ∧
    ¬ ([(⟨2, 2⟩ : IVec2), ⟨2, 2⟩].Nodup) ∧
    oneChunkMap.try_place ⟨0, 0⟩ [⟨2, 2⟩, ⟨2, 2⟩] = none :=
  ⟨by decide, by decide,
    try_place_duplicate_aborts oneChunkMap ⟨0, 0⟩ [⟨2, 2⟩, ⟨2, 2⟩] (by decide) (by decide)⟩

/-- Claim C4: for every global cell coordinate (signed, unbounded),
`chunk_to_global` applied to the pair produced by `global_to_chunk` yields the
original coordinate. -/
theorem chunk_to_global_global_to_chunk_roundtrip (pos : IVec2) :
    Map.chunk_to_global (Map.global_to_chunk pos).1 (Map.global_to_chunk pos).2 = pos :=
  roundtrip pos

/-- Claim C5: `global_to_chunk` is floored (Euclidean) division by 16 on each
axis: the local coordinate is in `[0,16)` on both axes and
`global = chunk * 16 + local`; in particular `(-1,-1)` maps to chunk
`(-1,-1)` with local `(15,15)`. -/
theorem global_to_chunk_floored_division :
    (∀ pos : IVec2,
      (0 ≤ (Map.global_to_chunk pos).2.x ∧ (Map.global_to_chunk pos).2.x < 16) ∧
      (0 ≤ (Map.global_to_chunk pos).2.y ∧ (Map.global_to_chunk pos).2.y < 16) ∧
      pos.x = (Map.global_to_chunk pos).1.x * 16 + (Map.global_to_chunk pos).2.x ∧
      pos.y = (Map.global_to_chunk pos).1.y * 16 + (Map.global_to_chunk pos).2.y) ∧
    Map.global_to_chunk ⟨-1, -1⟩ = (⟨-1, -1⟩, ⟨15, 15⟩) := by
  constructor
  · intro pos
    obtain ⟨hx, hy⟩ := local_range pos
    refine ⟨hx, hy, ?_, ?_⟩
    · simp only [global_to_chunk_fst, global_to_chunk_snd, CHUNK_SIZE_I32_eq,
        ediv16_eq, emod16_eq]
      omega
    · simp only [global_to_chunk_fst, global_to_chunk_snd, CHUNK_SIZE_I32_eq,
        ediv16_eq, emod16_eq]
      omega
  · decide

/-- Claim C6: for a local coordinate with both components in `[0,16)`,
`is_occupied` returns `true` iff the chunk is missing or its cell flag is
`true`, and returns `false` iff the chunk exists and the cell flag is
`false` (fail-closed on missing chunks). -/
theorem is_occupied_fail_closed (m : Map) (cp lp : IVec2)
    (hx : 0 ≤ lp.x ∧ lp.x < 16) (hy : 0 ≤ lp.y ∧ lp.y < 16) :
    (m.is_occupied cp lp = some true ↔
      m.chunks cp = none ∨ ∃ chunk, m.chunks cp = some chunk ∧
        chunk.get? lp.x lp.y = some true) ∧
    (m.is_occupied cp lp = some false ↔
      ∃ chunk, m.chunks cp = some chunk ∧ chunk.get? lp.x lp.y = some false) := by
  rcases hch : m.chunks cp with _ | chunk
  · constructor
    · simp [Map.is_occupied, hch]
    · simp [Map.is_occupied, hch]
  · have hsome : (ChunkData.get? chunk lp.x lp.y).isSome := by
      rw [ChunkData.get?_eq_some chunk hx hy]
      rfl
    constructor
    · simp only [Map.is_occupied, hch, Option.some.injEq]
      constructor
      · intro h
        exact Or.inr ⟨chunk, rfl, h⟩
      · rintro (h | ⟨c2, hc2, hg⟩)
        · cases h
        · cases hc2
          exact hg
    · simp only [Map.is_occupied, hch, Option.some.injEq]
      constructor
      · intro h
        exact ⟨chunk, rfl, h⟩
      · rintro ⟨c2, hc2, hg⟩
        cases hc2
        exact hg

theorem is_occupied_fail_closed_witness :
    ((0 : Int) ≤ (0 : Int) ∧ (0 : Int) < 16) ∧
    ((emptyMap.is_occupied ⟨3, 4⟩ ⟨0, 0⟩ = some true ↔
      emptyMap.chunks ⟨3, 4⟩ = none ∨ ∃ chunk, emptyMap.chunks ⟨3, 4⟩ = some chunk ∧
        chunk.get? 0 0 = some true) ∧
    (emptyMap.is_occupied ⟨3, 4⟩ ⟨0, 0⟩ = some false ↔
      ∃ chunk, emptyMap.chunks ⟨3, 4⟩ = some chunk ∧ chunk.get? 0 0 = some false)) :=
  ⟨by decide, is_occupied_fail_closed emptyMap ⟨3, 4⟩ ⟨0, 0⟩ (by decide) (by decide)⟩

/-- Claim C7: `create_chunk` at a coordinate with no chunk materializes an
all-unoccupied chunk (`is_occupied` is `some false` on all in-range local
coordinates afterwards); at a coordinate that already has a chunk it fails
fatally (the `panic!`, an irrecoverable abort, modelled as `Except.error`). -/
theorem create_chunk_fresh_or_fatal (m : Map) (pos : IVec2) :
    (m.chunks pos = none →
      ∃ m2, m.create_chunk pos = .ok m2 ∧
        ∀ lp : IVec2, 0 ≤ lp.x ∧ lp.x < 16 → 0 ≤ lp.y ∧ lp.y < 16 →
          m2.is_occupied pos lp = some false) ∧
    ((m.chunks pos).isSome → ∃ m3, m.create_chunk pos = .error m3) := by
  constructor
  · intro h
    refine ⟨m.insertChunk pos ChunkData.new, ?_, ?_⟩
    · simp [Map.create_chunk, h]
    · intro lp hx hy
      simp only [Map.is_occupied, insertChunk_chunks_self]
      rw [ChunkData.get?_eq_some _ hx hy]
      rfl
  · intro h
    refine ⟨m.insertChunk pos ChunkData.new, ?_⟩
    simp [Map.create_chunk, h]

theorem create_chunk_fresh_or_fatal_witness :
    emptyMap.chunks ⟨0, 0⟩ = none ∧
    (∃ m2, emptyMap.create_chunk ⟨0, 0⟩ = .ok m2 ∧
      ∀ lp : IVec2, 0 ≤ lp.x ∧ lp.x < 16 → 0 ≤ lp.y ∧ lp.y < 16 →
        m2.is_occupied ⟨0, 0⟩ lp = some false) ∧
    (oneChunkMap.chunks ⟨0, 0⟩).isSome = true ∧
    (∃ m3, oneChunkMap.create_chunk ⟨0, 0⟩ = .error m3) :=
  ⟨rfl, (create_chunk_fresh_or_fatal emptyMap ⟨0, 0⟩).1 rfl, rfl,
    (create_chunk_fresh_or_fatal oneChunkMap ⟨0, 0⟩).2 rfl⟩

/-- Claim C8: dispatching an event through a pipeline built by registering a
sequence of dispatchers invokes exactly the dispatchers whose `catches`
predicate accepts the event's command identifier, each exactly once, in
registration order, each with its own copy of the event — non-matching
dispatchers are skipped and no matching dispatcher suppresses a later one. -/
theorem dispatch_fanout {P A : Type} (ds : List (CommandDispatcher P A)) (e : CommandEvent P) :
    (ds.foldl CommandDispatcherPipeline.register_dispatcher ⟨[]⟩).dispatch e =
      (ds.filter (fun d => d.catches e.command_type)).map (fun d => (d, e)) := by
  unfold CommandDispatcherPipeline.dispatch
  rw [register_foldl_dispatchers ds ⟨[]⟩]
  simpa using foldl_dispatch_eq e ds []

/-- Claim C9: duplicate `create_chunk` mutates the map before the fatal
abort — at the moment of the `panic!` the chunk at the coordinate has already
been replaced by a fresh all-unoccupied `ChunkData::new()`, every other
coordinate unchanged; the failure is not state-preserving. -/
theorem create_chunk_duplicate_mutates_before_abort (m : Map) (pos : IVec2)
    (h : (m.chunks pos).isSome) :
    ∃ m2, m.create_chunk pos = .error m2 ∧ m2.chunks pos = some ChunkData.new ∧
      ∀ p : IVec2, p ≠ pos → m2.chunks p = m.chunks p :=
  ⟨m.insertChunk pos ChunkData.new, by simp [Map.create_chunk, h],
    insertChunk_chunks_self m pos ChunkData.new,
    fun p hp => insertChunk_chunks_other m ChunkData.new hp⟩

theorem create_chunk_duplicate_mutates_before_abort_witness :
    (occupiedMap.chunks ⟨0, 0⟩).isSome = true ∧
    (∃ m2, occupiedMap.create_chunk ⟨0, 0⟩ = .error m2 ∧
      m2.chunks ⟨0, 0⟩ = some ChunkData.new ∧
      ∀ p : IVec2, p ≠ ⟨0, 0⟩ → m2.chunks p = occupiedMap.chunks p) ∧
    occupiedMap.is_occupied ⟨0, 0⟩ ⟨0, 0⟩ = some true :=
  ⟨rfl, create_chunk_duplicate_mutates_before_abort occupiedMap ⟨0, 0⟩ rfl, rfl⟩

/-- Claim C10: `is_occupied` is not total over local coordinates — when the
chunk exists, an out-of-range local coordinate (any component negative or
`≥ 16`) makes the tile indexing abort (`none`, the out-of-bounds panic);
only when the chunk does not exist does it return a value (`some true`) for
arbitrary local coordinates. -/
theorem is_occupied_out_of_bounds_aborts (m : Map) (cp lp : IVec2) :
    ((m.chunks cp).isSome →
      ¬((0 ≤ lp.x ∧ lp.x < 16) ∧ (0 ≤ lp.y ∧ lp.y < 16)) →
      m.is_occupied cp lp = none) ∧
    (m.chunks cp = none → m.is_occupied cp lp = some true) := by
  constructor
  · intro h hoob
    rcases hch : m.chunks cp with _ | chunk
    · rw [hch] at h
      exact absurd h (by decide)
    · simp only [Map.is_occupied, hch]
      unfold ChunkData.get?
      rcases not_and_or.mp hoob with hxbad | hybad
      · rw [dif_neg hxbad]
      · by_cases hx2 : 0 ≤ lp.x ∧ lp.x < 16
        · rw [dif_pos hx2, dif_neg hybad]
        · rw [dif_neg hx2]
  · intro h
    simp only [Map.is_occupied, h]

theorem is_occupied_out_of_bounds_aborts_witness :
    (oneChunkMap.chunks ⟨0, 0⟩).isSome = true ∧
    ¬((0 ≤ (-1 : Int) ∧ (-1 : Int) < 16) ∧ (0 ≤ (0 : Int) ∧ (0 : Int) < 16)) ∧
    oneChunkMap.is_occupied ⟨0, 0⟩ ⟨-1, 0⟩ = none ∧
    emptyMap.chunks ⟨7, -2⟩ = none ∧
    emptyMap.is_occupied ⟨7, -2⟩ ⟨-5, 99⟩ = some true :=
  ⟨rfl, by decide,
    (is_occupied_out_of_bounds_aborts oneChunkMap ⟨0, 0⟩ ⟨-1, 0⟩).1 rfl (by decide),
    rfl,
    (is_occupied_out_of_bounds_aborts emptyMap ⟨7, -2⟩ ⟨-5, 99⟩).2 rfl⟩

end Barrage
